import Mathlib

/-!
Shallow embedding of the use-case-collector backend: the Express server
(server.ts) and the CSV import script (importScript.ts).  Strings are
modelled by Lean strings, the relational table by a list of rows carried
in a store together with an autoincrement counter and a logical clock
that stamps creation times.  Each HTTP handler and the importer loop is
translated into a pure function over that store.
-/

namespace UCC

/-! ### String utilities (JavaScript trim / toLowerCase / substring) -/

/-- Whitespace predicate used by the JavaScript trim model. -/
def isJsWs (c : Char) : Bool := c.isWhitespace

/-- Drop leading and trailing whitespace from a character list. -/
def trimChars (cs : List Char) : List Char :=
  ((cs.dropWhile isJsWs).reverse.dropWhile isJsWs).reverse

/-- Model of the JavaScript method trim on strings. -/
def jsTrim (s : String) : String := ⟨trimChars s.data⟩

/-- Model of the JavaScript toLowerCase method (character-wise). -/
def lowerStr (s : String) : String := ⟨s.data.map Char.toLower⟩

/-- Model of the JavaScript toUpperCase method (character-wise). -/
def upperStr (s : String) : String := ⟨s.data.map Char.toUpper⟩

/-- Model of the JavaScript startsWith check on character lists:
the first argument is the pattern, the second the scanned list. -/
def startsWithChars : List Char → List Char → Bool
  | [], _ => true
  | _ :: _, [] => false
  | p :: ps, c :: cs => p == c && startsWithChars ps cs

/-- Substring occurrence: the needle occurs contiguously inside the hay.
Models the Prisma contains operator and a case-blind search once both
sides are lowercased by the caller. -/
def containsChars : List Char → List Char → Bool
  | hay, needle =>
    match hay with
    | [] => needle.isEmpty
    | _ :: t => startsWithChars needle hay || containsChars t needle

/-- Model of the JavaScript replace method with a string pattern:
only the first occurrence of the pattern is replaced. -/
def listReplaceFirst (cs pat rep : List Char) : List Char :=
  match cs with
  | [] => if startsWithChars pat [] then rep else []
  | c :: rest =>
    if startsWithChars pat (c :: rest) then rep ++ (c :: rest).drop pat.length
    else c :: listReplaceFirst rest pat rep

/-- The error-code derivation of the global error handler:
constructor.name.toUpperCase().replace(ERROR, _ERROR). -/
def jsCode (name : String) : String :=
  ⟨listReplaceFirst (upperStr name).data "ERROR".data "_ERROR".data⟩

/-! ### The URL regex

The source uses the permissive pattern
(https?://)? ([\da-z.-]+) . ([a-z.]\x7b2,6\x7d) ([/\w .-]*)* /?
with the ignore-case flag.  The test lowercases the input (the flag) and
then asks for a decomposition into scheme, host labels, a dot, a short
tail group and a path part; the doubly starred path group and the final
optional slash generate exactly the words over the path class. -/

/-- Characters allowed in the host group: digits, lowercase letters,
dot and hyphen. -/
def urlHostChar (c : Char) : Bool := c.isDigit || c.isLower || c == '.' || c == '-'

/-- Characters allowed in the two-to-six length tail group. -/
def urlTldChar (c : Char) : Bool := c.isLower || c == '.'

/-- Characters allowed in the path part: slash, word characters,
space, dot and hyphen. -/
def urlPathChar (c : Char) : Bool :=
  c == '/' || c.isDigit || c.isLower || c == '_' || c == ' ' || c == '.' || c == '-'

/-- All ways of splitting a list into a prefix and the rest. -/
def splitsOf (cs : List Char) : List (List Char × List Char) :=
  (List.range (cs.length + 1)).map (fun k => (cs.take k, cs.drop k))

/-- Match the part after the mandatory dot: a tail group of length two to
six followed by path characters. -/
def matchDomainTail (cs : List Char) : Bool :=
  (splitsOf cs).any fun pr =>
    decide (2 ≤ pr.1.length) && decide (pr.1.length ≤ 6) &&
      pr.1.all urlTldChar && pr.2.all urlPathChar

/-- Match a scheme-free candidate: a nonempty host group, a dot, then the
domain tail. -/
def matchHost (cs : List Char) : Bool :=
  (splitsOf cs).any fun pr =>
    !pr.1.isEmpty && pr.1.all urlHostChar &&
      (match pr.2 with
       | '.' :: rest => matchDomainTail rest
       | _ => false)

/-- The optional scheme group: the candidates left after consuming either
nothing, http:// or https://. -/
def stripScheme (cs : List Char) : List (List Char) :=
  [cs] ++
    (match cs with
     | 'h' :: 't' :: 't' :: 'p' :: ':' :: '/' :: '/' :: rest => [rest]
     | _ => []) ++
    (match cs with
     | 'h' :: 't' :: 't' :: 'p' :: 's' :: ':' :: '/' :: '/' :: rest => [rest]
     | _ => [])

/-- Model of urlRegex.test, shared verbatim by the create validator and
the importer helper isValidUrl. -/
def urlRegexTest (s : String) : Bool :=
  (stripScheme (lowerStr s).data).any matchHost

/-! ### Data model: the UseCase table and the store -/

/-- One row of the UseCase table.  Optional columns are nullable in the
schema; createdAt and updatedAt are logical timestamps stamped by the
store on insert. -/
structure UseCase where
  id : Nat
  useCase : String
  conceptDescription : String
  concreteImplementation : Option String
  benefit : Option String
  industry : Option String
  department : Option String
  valueChainStep : Option String
  url : Option String
  createdAt : Nat
  updatedAt : Nat
deriving DecidableEq, Repr, Inhabited

/-- Column values supplied to an insert (prisma.useCase.create). -/
structure UseCaseData where
  useCase : String
  conceptDescription : String
  concreteImplementation : Option String
  benefit : Option String
  industry : Option String
  department : Option String
  valueChainStep : Option String
  url : Option String
deriving DecidableEq, Repr

/-- The relational store: rows in insertion order, the autoincrement id
counter and a logical clock used for the creation timestamps. -/
structure Store where
  rows : List UseCase
  nextId : Nat
  clock : Nat
deriving DecidableEq, Repr

/-- The store of a freshly initialised database. -/
def emptyStore : Store := { rows := [], nextId := 1, clock := 0 }

/-- Insert a row (prisma.useCase.create): the store stamps the generated
id and both timestamps. -/
def Store.create (s : Store) (d : UseCaseData) : Store × UseCase :=
  let row : UseCase :=
    { id := s.nextId
      useCase := d.useCase
      conceptDescription := d.conceptDescription
      concreteImplementation := d.concreteImplementation
      benefit := d.benefit
      industry := d.industry
      department := d.department
      valueChainStep := d.valueChainStep
      url := d.url
      createdAt := s.clock
      updatedAt := s.clock }
  ({ rows := s.rows ++ [row], nextId := s.nextId + 1, clock := s.clock + 1 }, row)

/-- findFirst with a case-blind equality filter on the name column,
used by the duplicate checks of the create endpoint and the importer. -/
def Store.findByNameCi (s : Store) (name : String) : Option UseCase :=
  s.rows.find? (fun r => decide (lowerStr r.useCase = lowerStr name))

/-- findUnique on the id column. -/
def Store.findById (s : Store) (id : Nat) : Option UseCase :=
  s.rows.find? (fun r => decide (r.id = id))

/-! ### Error taxonomy (the AppError class hierarchy) -/

/-- The application error classes thrown by the server: the validation
subclass, the not-found subclass, the unauthorized subclass and the base
class carrying an explicit status code (used for the 409 duplicate). -/
inductive AppErr where
  | validation (fields : List String)
  | notFound (resource : String) (id : Nat)
  | unauthorized
  | app (message : String) (statusCode : Nat)
deriving DecidableEq, Repr

/-- The statusCode field set by each constructor. -/
def AppErr.statusCode : AppErr → Nat
  | .validation _ => 400
  | .notFound _ _ => 404
  | .unauthorized => 401
  | .app _ c => c

/-- The message field set by each constructor. -/
def AppErr.message : AppErr → String
  | .validation _ => "Validation failed"
  | .notFound res id => res ++ " with id " ++ toString id ++ " not found"
  | .unauthorized => "Unauthorized: Invalid or missing API key"
  | .app m _ => m

/-- The runtime constructor name of each error class. -/
def AppErr.ctorName : AppErr → String
  | .validation _ => "ValidationAppError"
  | .notFound _ _ => "NotFoundError"
  | .unauthorized => "UnauthorizedError"
  | .app _ _ => "AppError"

/-- The JSON error payload: HTTP status plus the structured body fields
(success is always false and is omitted). -/
structure ErrorResponse where
  status : Nat
  message : String
  code : String
deriving DecidableEq, Repr

/-- The global error handler for the application error classes: the
validation subclass is tested first and gets the literal code
VALIDATION_ERROR with status 400; every other application error is
answered with its stored status code and a code derived from the
constructor name. -/
def errorResponse (e : AppErr) : ErrorResponse :=
  match e with
  | .validation _ => { status := 400, message := "Validation failed", code := "VALIDATION_ERROR" }
  | e => { status := e.statusCode, message := e.message, code := jsCode e.ctorName }

/-- Decidable equality for handler results. -/
instance exceptDecEq {ε α : Type} [DecidableEq ε] [DecidableEq α] :
    DecidableEq (Except ε α) := fun x y =>
  match x, y with
  | .ok a, .ok b => if h : a = b then isTrue (by rw [h]) else isFalse (by simp [h])
  | .error a, .error b => if h : a = b then isTrue (by rw [h]) else isFalse (by simp [h])
  | .ok _, .error _ => isFalse (by simp)
  | .error _, .ok _ => isFalse (by simp)

/-! ### The create endpoint: validation chain and handler -/

/-- The JSON body of a POST request; absent optional fields are none. -/
structure CreateRequest where
  useCase : String
  conceptDescription : String
  concreteImplementation : Option String
  benefit : Option String
  industry : Option String
  department : Option String
  valueChainStep : Option String
  url : Option String
deriving DecidableEq, Repr

/-- The trim sanitizers of the validation chain rewrite the body in
place before the checks and the handler run. -/
def sanitizeCreate (r : CreateRequest) : CreateRequest :=
  { useCase := jsTrim r.useCase
    conceptDescription := jsTrim r.conceptDescription
    concreteImplementation := r.concreteImplementation.map jsTrim
    benefit := r.benefit.map jsTrim
    industry := r.industry.map jsTrim
    department := r.department.map jsTrim
    valueChainStep := r.valueChainStep.map jsTrim
    url := r.url.map jsTrim }

/-- The fields rejected by createUseCaseValidation, evaluated on the
sanitized body (validators run after the trim sanitizer of their chain).
Optional rules are skipped on absent fields; the url rule accepts the
empty string and otherwise demands the regex. -/
def createValidationErrors (r : CreateRequest) : List String :=
  (if r.useCase ≠ "" ∧ 3 ≤ r.useCase.length ∧ r.useCase.length ≤ 500 then []
   else ["useCase"]) ++
  (if r.conceptDescription ≠ "" ∧ 10 ≤ r.conceptDescription.length ∧
      r.conceptDescription.length ≤ 10000 then []
   else ["conceptDescription"]) ++
  (match r.concreteImplementation with
   | none => []
   | some v => if v.length ≤ 10000 then [] else ["concreteImplementation"]) ++
  (match r.benefit with
   | none => []
   | some v => if v.length ≤ 5000 then [] else ["benefit"]) ++
  (match r.industry with
   | none => []
   | some v => if v.length ≤ 200 then [] else ["industry"]) ++
  (match r.department with
   | none => []
   | some v => if v.length ≤ 200 then [] else ["department"]) ++
  (match r.valueChainStep with
   | none => []
   | some v => if v.length ≤ 200 then [] else ["valueChainStep"]) ++
  (match r.url with
   | none => []
   | some v => if v = "" ∨ urlRegexTest v = true then [] else ["url"])

/-- Outcome of the POST handler. -/
inductive CreateResult where
  | created (row : UseCase)
  | error (e : AppErr)
deriving DecidableEq, Repr

/-- The POST use-cases pipeline after the auth middleware: run the
validation chain, reject on any validation error, run the case-blind
duplicate check, throw the 409 application error on a hit, otherwise
insert the trimmed body with nulls for absent optional fields. -/
def postUseCase (s : Store) (r : CreateRequest) : Store × CreateResult :=
  let r' := sanitizeCreate r
  let errs := createValidationErrors r'
  if errs = [] then
    match s.findByNameCi (jsTrim r'.useCase) with
    | some _ => (s, .error (.app "A use case with this name already exists" 409))
    | none =>
      let res := s.create
        { useCase := jsTrim r'.useCase
          conceptDescription := jsTrim r'.conceptDescription
          concreteImplementation := r'.concreteImplementation.map jsTrim
          benefit := r'.benefit.map jsTrim
          industry := r'.industry.map jsTrim
          department := r'.department.map jsTrim
          valueChainStep := r'.valueChainStep.map jsTrim
          url := r'.url.map jsTrim }
      (res.1, .created res.2)
  else (s, .error (.validation errs))

/-! ### API key middleware -/

/-- The auth middleware mounted on the api router: only POST requests
are examined; with no configured key every request passes (a warning is
logged); otherwise the x-api-key header must be present, non-empty
(JavaScript truthiness) and exactly equal to the configured key. -/
def apiKeyAuthAccepts (apiKey : String) (method : String) (provided : Option String) : Bool :=
  if method = "POST" then
    if apiKey = "" then true
    else
      match provided with
      | none => false
      | some k => if k = "" then false else decide (k = apiKey)
  else true

/-- The full POST endpoint as seen by a client: auth middleware first,
then validation and the handler. -/
def postEndpoint (apiKey : String) (provided : Option String) (s : Store) (r : CreateRequest) :
    Store × CreateResult :=
  if apiKeyAuthAccepts apiKey "POST" provided then postUseCase s r
  else (s, .error .unauthorized)

/-! ### The list endpoint -/

/-- Ordering by creation time descending (the orderBy of the page
query). -/
def createdDesc (a b : UseCase) : Prop := b.createdAt ≤ a.createdAt

instance : DecidableRel createdDesc := fun _ _ => Nat.decLe _ _

instance : IsTotal UseCase createdDesc :=
  ⟨fun a b => Nat.le_total b.createdAt a.createdAt⟩

instance : IsTrans UseCase createdDesc :=
  ⟨fun _ _ _ hab hbc => Nat.le_trans hbc hab⟩

/-- Query parameters of the list endpoint after the isInt validators:
page and limit as numbers when supplied, the filter strings raw. -/
structure ListParams where
  page : Option Nat
  limit : Option Nat
  industry : Option String
  valueChainStep : Option String
  department : Option String
  search : Option String
deriving DecidableEq, Repr

/-- The trim sanitizers of paginationValidation rewrite the query
strings in place. -/
def sanitizeListParams (p : ListParams) : ListParams :=
  { p with
    industry := p.industry.map jsTrim
    valueChainStep := p.valueChainStep.map jsTrim
    department := p.department.map jsTrim
    search := p.search.map jsTrim }

/-- paginationValidation: page at least one, limit between one and one
hundred, filter strings length-capped (evaluated after the trim
sanitizers). -/
def listValidationOk (p : ListParams) : Bool :=
  (match p.page with | none => true | some n => decide (1 ≤ n)) &&
  (match p.limit with | none => true | some n => decide (1 ≤ n) && decide (n ≤ 100)) &&
  (match p.industry with | none => true | some s => decide (s.length ≤ 200)) &&
  (match p.valueChainStep with | none => true | some s => decide (s.length ≤ 200)) &&
  (match p.department with | none => true | some s => decide (s.length ≤ 200)) &&
  (match p.search with | none => true | some s => decide (s.length ≤ 500))

/-- JavaScript truthiness on a trimmed query value: the filter is active
only when present and non-empty. -/
def activeFilter (o : Option String) : Option String :=
  match o with
  | none => none
  | some s => if s = "" then none else some s

/-- One categorical clause of the where object: absent filter accepts
everything, an active filter is a case-blind equality on a nullable
column (null never matches). -/
def ciEqFilter (o : Option String) (field : Option String) : Bool :=
  match o with
  | none => true
  | some s =>
    match field with
    | some v => decide (lowerStr v = lowerStr s)
    | none => false

/-- The search clause of the where object: a case-blind substring check
OR-ed over the name, the description and the benefit (a null benefit
never matches). -/
def searchFilter (o : Option String) (r : UseCase) : Bool :=
  match o with
  | none => true
  | some s =>
    containsChars (lowerStr r.useCase).data (lowerStr s).data ||
    containsChars (lowerStr r.conceptDescription).data (lowerStr s).data ||
    (match r.benefit with
     | some b => containsChars (lowerStr b).data (lowerStr s).data
     | none => false)

/-- The where clause built by the handler, as a predicate on a row: the
logical AND of the three categorical clauses and the search clause. -/
def rowMatches (ind vcs dep sea : Option String) (r : UseCase) : Bool :=
  ciEqFilter ind r.industry && ciEqFilter vcs r.valueChainStep &&
    ciEqFilter dep r.department && searchFilter sea r

/-- The where predicate produced for given (sanitized) query strings:
the handler trims each filter value once more and applies truthiness. -/
def listPred (ind vcs dep sea : Option String) : UseCase → Bool :=
  rowMatches (activeFilter (ind.map jsTrim)) (activeFilter (vcs.map jsTrim))
    (activeFilter (dep.map jsTrim)) (activeFilter (sea.map jsTrim))

/-- Pagination block of the list response. -/
structure Pagination where
  page : Nat
  limit : Nat
  total : Nat
  totalPages : Nat
  hasNext : Bool
  hasPrev : Bool
deriving DecidableEq, Repr, Inhabited

/-- Echo of the applied (trimmed) filters. -/
structure FiltersEcho where
  industry : Option String
  valueChainStep : Option String
  department : Option String
  search : Option String
deriving DecidableEq, Repr, Inhabited

/-- Body of a successful list response (always sent with status 200). -/
structure ListResponse where
  data : List UseCase
  pagination : Pagination
  filters : FiltersEcho
deriving DecidableEq, Repr, Inhabited

/-- The list handler body (it runs only after validation passed):
defaults page to one and limit to twenty, trims the filter strings,
fetches the page window of the filtered rows ordered by creation time
descending, counts the filtered rows, and assembles the pagination
block with Math.ceil for the page count. -/
def listHandler (s : Store) (pageOpt limitOpt : Option Nat)
    (ind vcs dep sea : Option String) : ListResponse :=
  let page := pageOpt.getD 1
  let limit := limitOpt.getD 20
  let skip := (page - 1) * limit
  let industry := ind.map jsTrim
  let valueChainStep := vcs.map jsTrim
  let department := dep.map jsTrim
  let search := sea.map jsTrim
  let pred := rowMatches (activeFilter industry) (activeFilter valueChainStep)
    (activeFilter department) (activeFilter search)
  let sorted := List.insertionSort createdDesc (s.rows.filter pred)
  let total := (s.rows.filter pred).length
  let totalPages := (total + limit - 1) / limit
  { data := (sorted.drop skip).take limit
    pagination :=
      { page := page
        limit := limit
        total := total
        totalPages := totalPages
        hasNext := decide (page < totalPages)
        hasPrev := decide (1 < page) }
    filters :=
      { industry := industry
        valueChainStep := valueChainStep
        department := department
        search := search } }

/-- The GET use-cases endpoint: validation (after sanitizing) guards the
handler; a failure is answered by the validation error branch of the
global error handler. -/
def getUseCases (s : Store) (p : ListParams) : Except AppErr ListResponse :=
  let p := sanitizeListParams p
  if listValidationOk p then
    .ok (listHandler s p.page p.limit p.industry p.valueChainStep p.department p.search)
  else .error (.validation ["query"])

/-! ### The get-by-id endpoint -/

/-- Decimal digits to a number. -/
def digitsToNat (ds : List Char) : Nat :=
  ds.foldl (fun a c => a * 10 + (c.toNat - 48)) 0

/-- The isInt validator shape: an optional sign followed by at least one
digit. -/
def isIntString (s : String) : Bool :=
  match s.data with
  | [] => false
  | '+' :: ds => !ds.isEmpty && ds.all Char.isDigit
  | '-' :: ds => !ds.isEmpty && ds.all Char.isDigit
  | ds => ds.all Char.isDigit

/-- Numeric value of an integer-shaped string (what parseInt returns on
such input). -/
def strToInt (s : String) : Int :=
  match s.data with
  | '+' :: ds => (digitsToNat ds : Int)
  | '-' :: ds => -(digitsToNat ds : Int)
  | ds => (digitsToNat ds : Int)

/-- The GET use-cases id endpoint: idParamValidation demands an integer
of at least one, then the handler looks the row up and throws the
not-found error class on a miss. -/
def getUseCaseById (s : Store) (idParam : String) : Except AppErr UseCase :=
  if isIntString idParam && decide (1 ≤ strToInt idParam) then
    let id := (strToInt idParam).toNat
    match s.findById id with
    | some r => .ok r
    | none => .error (.notFound "UseCase" id)
  else .error (.validation ["id"])

/-! ### The CSV importer -/

/-- One parsed CSV record; a column is none when absent from the row. -/
structure CsvRow where
  useCase : Option String
  conceptDescription : Option String
  concreteImplementation : Option String
  benefit : Option String
  industry : Option String
  department : Option String
  valueChainStep : Option String
  url : Option String
deriving DecidableEq, Repr

/-- normalizeValue: trim the cell, and map an absent or blank cell to
null. -/
def normalizeValue (v : Option String) : Option String :=
  match v with
  | none => none
  | some s =>
    let t := jsTrim s
    if 0 < t.length then some t else none

/-- Per-row outcome of the import loop. -/
inductive RowOutcome where
  | emptyName
  | emptyDesc
  | duplicate
  | insertedRow
deriving DecidableEq, Repr

/-- One iteration of the import loop: skip a row with a blank name or a
blank description, skip (as duplicate) a row whose name already exists
case-blind in the store, otherwise insert the normalized row.  An
invalid url shape is only warned about: the value is stored unchanged
either way. -/
def importRow (s : Store) (row : CsvRow) : Store × RowOutcome :=
  match normalizeValue row.useCase with
  | none => (s, .emptyName)
  | some name =>
    match normalizeValue row.conceptDescription with
    | none => (s, .emptyDesc)
    | some desc =>
      match s.findByNameCi name with
      | some _ => (s, .duplicate)
      | none =>
        let url := normalizeValue row.url
        ((s.create
          { useCase := name
            conceptDescription := desc
            concreteImplementation := normalizeValue row.concreteImplementation
            benefit := normalizeValue row.benefit
            industry := normalizeValue row.industry
            department := normalizeValue row.department
            valueChainStep := normalizeValue row.valueChainStep
            url := url }).1, .insertedRow)

/-- Summary counters of an import run.  The errors counter only moves on
store exceptions, which the pure model does not produce. -/
structure ImportStats where
  totalRows : Nat
  inserted : Nat
  skipped : Nat
  duplicates : Nat
  errors : Nat
deriving DecidableEq, Repr

/-- Add one row outcome to the counters. -/
def tallyOutcome (st : ImportStats) (o : RowOutcome) : ImportStats :=
  match o with
  | .emptyName => { st with skipped := st.skipped + 1 }
  | .emptyDesc => { st with skipped := st.skipped + 1 }
  | .duplicate => { st with duplicates := st.duplicates + 1 }
  | .insertedRow => { st with inserted := st.inserted + 1 }

/-- A record that passes both required-field checks of the import loop
(name and description normalize to non-null). -/
def fullyValid (row : CsvRow) : Bool :=
  (normalizeValue row.useCase).isSome && (normalizeValue row.conceptDescription).isSome

/-- The sequential row loop of importUseCases. -/
def runImportAux (s : Store) (st : ImportStats) : List CsvRow → Store × ImportStats
  | [] => (s, st)
  | row :: rest =>
    let step := importRow s row
    runImportAux step.1 (tallyOutcome st step.2) rest

/-- importUseCases over an already parsed record list. -/
def runImport (s : Store) (rows : List CsvRow) : Store × ImportStats :=
  runImportAux s
    { totalRows := rows.length, inserted := 0, skipped := 0, duplicates := 0, errors := 0 }
    rows

/-! ### Sequences of mutating operations (for the store invariants) -/

/-- A mutating operation of the system: one create request or one
importer run over a record list. -/
inductive Op where
  | create (r : CreateRequest)
  | importFile (rows : List CsvRow)

/-- Apply one operation to the store. -/
def applyOp (s : Store) : Op → Store
  | .create r => (postUseCase s r).1
  | .importFile rows => (runImport s rows).1

/-- Apply a sequence of operations left to right. -/
def applyOps (s : Store) (ops : List Op) : Store :=
  ops.foldl applyOp s

/-- The documented store invariant: names and descriptions stay
non-blank under trimming, and names are pairwise distinct case-blind. -/
def StoreInv (s : Store) : Prop :=
  (∀ r ∈ s.rows, jsTrim r.useCase ≠ "" ∧ jsTrim r.conceptDescription ≠ "") ∧
  s.rows.Pairwise (fun a b => lowerStr a.useCase ≠ lowerStr b.useCase)

/-- Well-formedness of the id counter: every stored id is below the
autoincrement counter (and ids are pairwise distinct). -/
def StoreWf (s : Store) : Prop :=
  (∀ r ∈ s.rows, r.id < s.nextId) ∧ s.rows.Pairwise (fun a b => a.id ≠ b.id)


/-! ### Concrete fixtures used by witnesses and counterexamples -/

/-- A minimal valid create request (the concrete scenario of the spec). -/
def demoReq : CreateRequest :=
  { useCase := "Predictive Maintenance"
    conceptDescription := "Use ML to predict failures"
    concreteImplementation := none
    benefit := none
    industry := none
    department := none
    valueChainStep := none
    url := none }

/-- The same name in a different case with stray whitespace. -/
def demoReqCased : CreateRequest :=
  { demoReq with useCase := "  predictive MAINTENANCE " }

/-- The row the demo request creates in an empty store. -/
def demoRow : UseCase :=
  { id := 1
    useCase := "Predictive Maintenance"
    conceptDescription := "Use ML to predict failures"
    concreteImplementation := none
    benefit := none
    industry := none
    department := none
    valueChainStep := none
    url := none
    createdAt := 0
    updatedAt := 0 }

/-- The store after posting the demo request to an empty store. -/
def demoStore : Store := (postUseCase emptyStore demoReq).1

/-- A CSV record that is valid apart from its malformed url cell. -/
def demoCsv : CsvRow :=
  { useCase := some "A"
    conceptDescription := some "small desc"
    concreteImplementation := none
    benefit := none
    industry := none
    department := none
    valueChainStep := none
    url := some "notaurl" }

/-- The row the importer inserts for a record whose normalized name is
n and whose normalized description is d (see importRow and
Store.create). -/
def importedRow (s : Store) (row : CsvRow) (n d : String) : UseCase :=
  { id := s.nextId
    useCase := n
    conceptDescription := d
    concreteImplementation := normalizeValue row.concreteImplementation
    benefit := normalizeValue row.benefit
    industry := normalizeValue row.industry
    department := normalizeValue row.department
    valueChainStep := normalizeValue row.valueChainStep
    url := normalizeValue row.url
    createdAt := s.clock
    updatedAt := s.clock }

/-- The row the create handler inserts for a request r (see postUseCase
and Store.create): the sanitized body trimmed once more, nulls for
absent optional fields, the generated id and the timestamps. -/
def createdRow (s : Store) (r : CreateRequest) : UseCase :=
  { id := s.nextId
    useCase := jsTrim (sanitizeCreate r).useCase
    conceptDescription := jsTrim (sanitizeCreate r).conceptDescription
    concreteImplementation := (sanitizeCreate r).concreteImplementation.map jsTrim
    benefit := (sanitizeCreate r).benefit.map jsTrim
    industry := (sanitizeCreate r).industry.map jsTrim
    department := (sanitizeCreate r).department.map jsTrim
    valueChainStep := (sanitizeCreate r).valueChainStep.map jsTrim
    url := (sanitizeCreate r).url.map jsTrim
    createdAt := s.clock
    updatedAt := s.clock }

/-- How many stored rows carry a given name under case-blind
comparison. -/
def countByNameCi (s : Store) (name : String) : Nat :=
  (s.rows.filter (fun r => decide (lowerStr r.useCase = lowerStr name))).length

/-! ### Lemmas about trimming -/

theorem dropWhile_dropWhile {α : Type} (p : α → Bool) (l : List α) :
    (l.dropWhile p).dropWhile p = l.dropWhile p := by
  induction l with
  | nil => rfl
  | cons a l ih =>
    by_cases h : p a
    · simp [List.dropWhile_cons_of_pos h, ih]
    · simp [List.dropWhile_cons_of_neg h, h]

theorem dropWhile_cons_self_head {α : Type} {p : α → Bool} {a : α} {l : List α}
    (h : (a :: l).dropWhile p = a :: l) : p a = false := by
  by_cases hp : p a
  · exfalso
    rw [List.dropWhile_cons_of_pos hp] at h
    have hlen := congrArg List.length h
    have hle := (List.dropWhile_suffix (l := l) p).length_le
    simp at hlen
    omega
  · exact Bool.eq_false_iff.mpr hp

theorem prefix_dropWhile_eq_self {α : Type} {p : α → Bool} {l₁ l₂ : List α}
    (hpre : l₁ <+: l₂) (h : l₂.dropWhile p = l₂) : l₁.dropWhile p = l₁ := by
  match l₁, hpre with
  | [], _ => rfl
  | a :: t, hpre =>
    obtain ⟨rest, hr⟩ := hpre
    have hl₂ : l₂ = a :: (t ++ rest) := by rw [← hr]; rfl
    subst hl₂
    have hfa : p a = false := dropWhile_cons_self_head h
    rw [List.dropWhile_cons_of_neg (by simp [hfa])]

theorem trimChars_idem (cs : List Char) : trimChars (trimChars cs) = trimChars cs := by
  unfold trimChars
  have hd1self : (cs.dropWhile isJsWs).dropWhile isJsWs = cs.dropWhile isJsWs :=
    dropWhile_dropWhile _ _
  have hpre :
      ((cs.dropWhile isJsWs).reverse.dropWhile isJsWs).reverse <+: cs.dropWhile isJsWs := by
    have hsuf := List.dropWhile_suffix (l := (cs.dropWhile isJsWs).reverse) isJsWs
    have := List.reverse_prefix.mpr hsuf
    simpa using this
  have htself := prefix_dropWhile_eq_self hpre hd1self
  rw [htself]
  rw [List.reverse_reverse, dropWhile_dropWhile]

theorem jsTrim_idem (s : String) : jsTrim (jsTrim s) = jsTrim s := by
  unfold jsTrim
  exact congrArg String.mk (trimChars_idem s.data)

theorem jsTrim_data (s : String) : (jsTrim s).data = trimChars s.data := rfl

theorem ne_empty_of_length_pos {s : String} (h : 0 < s.length) : s ≠ "" := by
  intro he
  subst he
  simp [String.length] at h

/-- First row with a given id is unique under pairwise distinct ids. -/
theorem find_by_id_unique {rows : List UseCase} {r : UseCase}
    (hp : rows.Pairwise (fun a b => a.id ≠ b.id)) (hr : r ∈ rows) :
    rows.find? (fun x => decide (x.id = r.id)) = some r := by
  induction rows with
  | nil => cases hr
  | cons a t ih =>
    rcases List.mem_cons.mp hr with h | h
    · subst h
      simp
    · have ha : a.id ≠ r.id := (List.pairwise_cons.mp hp).1 r h
      rw [List.find?_cons_of_neg _ (by simpa using ha)]
      exact ih (List.pairwise_cons.mp hp).2 h



/-! ### C8: shared-secret gate on POST -/

/-- C8: with a configured shared secret, a POST whose x-api-key header
is missing or not exactly equal to the secret is rejected with the 401
unauthorized error and the store is untouched; a matching header
reaches the handler; with no configured secret every POST reaches the
handler; a non-POST request always passes the check. -/
theorem c8_api_key_gate (apiKey : String) (provided : Option String)
    (s : Store) (r : CreateRequest) (m : String) :
    (apiKey ≠ "" → provided = none →
      postEndpoint apiKey provided s r = (s, .error .unauthorized)) ∧
    (apiKey ≠ "" → ∀ k, provided = some k → k ≠ apiKey →
      postEndpoint apiKey provided s r = (s, .error .unauthorized)) ∧
    (errorResponse .unauthorized).status = 401 ∧
    (apiKey = "" → postEndpoint apiKey provided s r = postUseCase s r) ∧
    (provided = some apiKey → postEndpoint apiKey provided s r = postUseCase s r) ∧
    (m ≠ "POST" → apiKeyAuthAccepts apiKey m provided = true) := by
  refine ⟨?_, ?_, rfl, ?_, ?_, ?_⟩
  · intro hk hp; subst hp
    simp [postEndpoint, apiKeyAuthAccepts, hk]
  · intro hk k hp hne; subst hp
    by_cases hke : k = ""
    · subst hke; simp [postEndpoint, apiKeyAuthAccepts, hk]
    · simp [postEndpoint, apiKeyAuthAccepts, hk, hke, hne]
  · intro hk; subst hk
    simp [postEndpoint, apiKeyAuthAccepts]
  · intro hp; subst hp
    by_cases hk : apiKey = ""
    · simp [postEndpoint, apiKeyAuthAccepts, hk]
    · simp [postEndpoint, apiKeyAuthAccepts, hk]
  · intro hm; simp [apiKeyAuthAccepts, hm]

/-- Witness for C8 at a concrete key, header, store and request. -/
theorem c8_api_key_gate_witness :
    ("secret" : String) ≠ "" ∧ ("wrong" : String) ≠ "secret" ∧ ("GET" : String) ≠ "POST" ∧
    postEndpoint "secret" (some "wrong") emptyStore demoReq =
      (emptyStore, .error .unauthorized) ∧
    apiKeyAuthAccepts "secret" "GET" (some "wrong") = true := by
  refine ⟨by decide, by decide, by decide, ?_, ?_⟩
  · exact (c8_api_key_gate "secret" (some "wrong") emptyStore demoReq "GET").2.1
      (by decide) "wrong" rfl (by decide)
  · exact (c8_api_key_gate "secret" (some "wrong") emptyStore demoReq "GET").2.2.2.2.2
      (by decide)

/-! ### C2: url handling on the two creation paths -/

/-- C2 as stated is false on the create endpoint: a malformed url value
is rejected by validation (nothing is stored), it is not accepted and
stored as-is. -/
theorem c2_counterexample :
    urlRegexTest "notaurl" = false ∧
    (postUseCase emptyStore { demoReq with url := some "notaurl" }).2 =
      .error (.validation ["url"]) ∧
    (postUseCase emptyStore { demoReq with url := some "notaurl" }).1 = emptyStore := by
  refine ⟨by decide, by decide, by decide⟩

/-- C2 (amended): the url is only loosely checked against the
permissive regex; on the importer path an arbitrary (possibly invalid)
url cell is non-fatal and the row is inserted with the url stored
as-is, while on the create endpoint a non-empty url that fails the
regex makes validation fail, the request is rejected and nothing is
stored. -/
theorem c2_url_validation (s : Store) (row : CsvRow) (n d u : String)
    (hn : normalizeValue row.useCase = some n)
    (hd : normalizeValue row.conceptDescription = some d)
    (hnodup : s.findByNameCi n = none)
    (hu : normalizeValue row.url = some u)
    (r : CreateRequest) (v : String)
    (hru : r.url = some v) (hv : jsTrim v ≠ "")
    (hbad : urlRegexTest (jsTrim v) = false) :
    (∃ t, importRow s row = (t, .insertedRow) ∧
      t.rows = s.rows ++ [importedRow s row n d] ∧
      (importedRow s row n d).url = some u) ∧
    (∃ errs, postUseCase s r = (s, .error (.validation errs)) ∧ "url" ∈ errs) := by
  constructor
  · refine ⟨⟨s.rows ++ [importedRow s row n d], s.nextId + 1, s.clock + 1⟩, ?_, rfl, ?_⟩
    · simp [importRow, hn, hd, hnodup, Store.create, importedRow]
    · simp [importedRow, hu]
  · have hurl : "url" ∈ createValidationErrors (sanitizeCreate r) := by
      unfold createValidationErrors
      apply List.mem_append.mpr
      right
      simp [sanitizeCreate, hru, hv, hbad]
    have hne : createValidationErrors (sanitizeCreate r) ≠ [] := by
      intro h
      rw [h] at hurl
      exact absurd hurl (List.not_mem_nil _)
    refine ⟨createValidationErrors (sanitizeCreate r), ?_, hurl⟩
    simp [postUseCase, hne]

/-- Witness for the amended C2 at the concrete malformed url. -/
theorem c2_url_validation_witness :
    normalizeValue demoCsv.useCase = some "A" ∧
    normalizeValue demoCsv.conceptDescription = some "small desc" ∧
    emptyStore.findByNameCi "A" = none ∧
    normalizeValue demoCsv.url = some "notaurl" ∧
    ({ demoReq with url := some "notaurl" } : CreateRequest).url = some "notaurl" ∧
    jsTrim "notaurl" ≠ "" ∧
    urlRegexTest (jsTrim "notaurl") = false ∧
    ((∃ t, importRow emptyStore demoCsv = (t, .insertedRow) ∧
      t.rows = emptyStore.rows ++ [importedRow emptyStore demoCsv "A" "small desc"] ∧
      (importedRow emptyStore demoCsv "A" "small desc").url = some "notaurl") ∧
    (∃ errs, postUseCase emptyStore { demoReq with url := some "notaurl" } =
      (emptyStore, .error (.validation errs)) ∧ "url" ∈ errs)) := by
  refine ⟨by decide, by decide, by decide, by decide, rfl, by decide, by decide, ?_⟩
  exact c2_url_validation emptyStore demoCsv "A" "small desc" "notaurl"
    (by decide) (by decide) (by decide) (by decide)
    { demoReq with url := some "notaurl" } "notaurl" rfl (by decide) (by decide)


/-! ### C1: duplicate name on the create endpoint -/

/-- C1 as stated is false in its error-code part: the second create of
the same name is answered 409, but the body code is APP_ERROR (derived
from the AppError constructor name), not DUPLICATE_ENTRY. -/
theorem c1_counterexample :
    (postUseCase demoStore demoReqCased).2 =
      .error (.app "A use case with this name already exists" 409) ∧
    (errorResponse (.app "A use case with this name already exists" 409)).status = 409 ∧
    (errorResponse (.app "A use case with this name already exists" 409)).code =
      "APP_ERROR" ∧
    (errorResponse (.app "A use case with this name already exists" 409)).code ≠
      "DUPLICATE_ENTRY" := by
  refine ⟨by decide, by decide, by decide, by decide⟩

/-- C1 (amended): when a use case with the submitted name already
exists case-blind, the create handler stores nothing and answers the
409 application error whose body code is APP_ERROR (not
DUPLICATE_ENTRY); creating the same name twice sequentially stores
exactly one row and the second attempt gets that 409. -/
theorem c1_duplicate_conflict (s : Store) (r : CreateRequest)
    (hv : createValidationErrors (sanitizeCreate r) = [])
    (hnew : s.findByNameCi (jsTrim (sanitizeCreate r).useCase) = none) :
    (postUseCase s r).2 = .created (createdRow s r) ∧
    (postUseCase s r).1.rows = s.rows ++ [createdRow s r] ∧
    countByNameCi (postUseCase s r).1 (jsTrim (sanitizeCreate r).useCase) = 1 ∧
    (∀ r₂, createValidationErrors (sanitizeCreate r₂) = [] →
      lowerStr (jsTrim (sanitizeCreate r₂).useCase) =
        lowerStr (jsTrim (sanitizeCreate r).useCase) →
      postUseCase (postUseCase s r).1 r₂ =
        ((postUseCase s r).1,
          .error (.app "A use case with this name already exists" 409))) ∧
    errorResponse (.app "A use case with this name already exists" 409) =
      { status := 409
        message := "A use case with this name already exists"
        code := "APP_ERROR" } := by
  have hres : postUseCase s r =
      ({ rows := s.rows ++ [createdRow s r], nextId := s.nextId + 1, clock := s.clock + 1 },
        .created (createdRow s r)) := by
    simp [postUseCase, hv, hnew, Store.create, createdRow]
  have hfilter : s.rows.filter
      (fun row => decide (lowerStr row.useCase =
        lowerStr (jsTrim (sanitizeCreate r).useCase))) = [] := by
    rw [List.filter_eq_nil_iff]
    intro x hx
    have := List.find?_eq_none.mp hnew x hx
    simpa using this
  refine ⟨by rw [hres], by rw [hres], ?_, ?_, by decide⟩
  · rw [hres]
    unfold countByNameCi
    simp only [List.filter_append, hfilter, List.nil_append]
    simp [createdRow]
  · intro r₂ hv₂ hci
    have hfind : (Store.mk (s.rows ++ [createdRow s r]) (s.nextId + 1)
        (s.clock + 1)).findByNameCi (jsTrim (sanitizeCreate r₂).useCase) =
        some (createdRow s r) := by
      unfold Store.findByNameCi
      rw [List.find?_append]
      have h1 : s.rows.find?
          (fun row => decide (lowerStr row.useCase =
            lowerStr (jsTrim (sanitizeCreate r₂).useCase))) = none := by
        rw [List.find?_eq_none]
        intro x hx
        simp only [decide_eq_true_eq, hci]
        have := List.find?_eq_none.mp hnew x hx
        simpa using this
      rw [h1]
      simp [createdRow, hci]
    rw [hres]
    simp [postUseCase, hv₂, hfind]

/-- Witness for the amended C1 at the concrete duplicate scenario. -/
theorem c1_duplicate_conflict_witness :
    createValidationErrors (sanitizeCreate demoReq) = [] ∧
    emptyStore.findByNameCi (jsTrim (sanitizeCreate demoReq).useCase) = none ∧
    ((postUseCase emptyStore demoReq).2 = .created (createdRow emptyStore demoReq) ∧
    (postUseCase emptyStore demoReq).1.rows =
      emptyStore.rows ++ [createdRow emptyStore demoReq] ∧
    countByNameCi (postUseCase emptyStore demoReq).1
      (jsTrim (sanitizeCreate demoReq).useCase) = 1 ∧
    (∀ r₂, createValidationErrors (sanitizeCreate r₂) = [] →
      lowerStr (jsTrim (sanitizeCreate r₂).useCase) =
        lowerStr (jsTrim (sanitizeCreate demoReq).useCase) →
      postUseCase (postUseCase emptyStore demoReq).1 r₂ =
        ((postUseCase emptyStore demoReq).1,
          .error (.app "A use case with this name already exists" 409))) ∧
    errorResponse (.app "A use case with this name already exists" 409) =
      { status := 409
        message := "A use case with this name already exists"
        code := "APP_ERROR" }) := by
  refine ⟨by decide, by decide, ?_⟩
  exact c1_duplicate_conflict emptyStore demoReq (by decide) (by decide)


/-! ### C4: get-by-id -/

/-- C4 as stated is false in its error-code part: an unknown positive
id is answered 404, but the body code is NOTFOUND_ERROR (derived from
the NotFoundError constructor name), not NOT_FOUND. -/
theorem c4_counterexample :
    getUseCaseById emptyStore "5" = .error (.notFound "UseCase" 5) ∧
    (errorResponse (.notFound "UseCase" 5)).status = 404 ∧
    (errorResponse (.notFound "UseCase" 5)).code = "NOTFOUND_ERROR" ∧
    (errorResponse (.notFound "UseCase" 5)).code ≠ "NOT_FOUND" := by
  refine ⟨by decide, by decide, by decide, by decide⟩

/-- C4 (amended): a positive-integer id matching no stored row is
answered 404 with body code NOTFOUND_ERROR (not NOT_FOUND); the id of a
stored row returns the full row; a non-positive or non-integer id fails
validation with a 400 VALIDATION_ERROR response instead. -/
theorem c4_get_by_id (s : Store) (idParam : String) (r : UseCase) :
    (isIntString idParam = true → 1 ≤ strToInt idParam →
      s.findById (strToInt idParam).toNat = none →
      getUseCaseById s idParam =
        .error (.notFound "UseCase" (strToInt idParam).toNat) ∧
      (errorResponse (.notFound "UseCase" (strToInt idParam).toNat)).status = 404 ∧
      (errorResponse (.notFound "UseCase" (strToInt idParam).toNat)).code =
        "NOTFOUND_ERROR") ∧
    (isIntString idParam = true → strToInt idParam = (r.id : Int) → 1 ≤ r.id →
      r ∈ s.rows → s.rows.Pairwise (fun a b => a.id ≠ b.id) →
      getUseCaseById s idParam = .ok r) ∧
    ((isIntString idParam = false ∨ strToInt idParam < 1) →
      getUseCaseById s idParam = .error (.validation ["id"]) ∧
      (errorResponse (.validation ["id"])).status = 400 ∧
      (errorResponse (.validation ["id"])).code = "VALIDATION_ERROR") := by
  refine ⟨?_, ?_, ?_⟩
  · intro h1 h2 h3
    refine ⟨?_, rfl, rfl⟩
    simp [getUseCaseById, h1, h2, h3]
  · intro hparse hval hpos hr hp
    have hc : (1 : Int) ≤ strToInt idParam := by
      rw [hval]
      exact_mod_cast hpos
    have ht : (strToInt idParam).toNat = r.id := by
      rw [hval]
      exact Int.toNat_natCast r.id
    have hfind : s.findById r.id = some r := find_by_id_unique hp hr
    simp [getUseCaseById, hparse, hc, ht, hfind]
  · intro hbad
    refine ⟨?_, rfl, rfl⟩
    rcases hbad with h | h
    · simp [getUseCaseById, h]
    · have hnle : ¬ (1 : Int) ≤ strToInt idParam := Int.not_le.mpr h
      simp [getUseCaseById, hnle]

/-- Witness for the amended C4: all three branches at concrete inputs. -/
theorem c4_get_by_id_witness :
    (getUseCaseById demoStore "5" =
        .error (.notFound "UseCase" (strToInt "5").toNat) ∧
      (errorResponse (.notFound "UseCase" (strToInt "5").toNat)).status = 404 ∧
      (errorResponse (.notFound "UseCase" (strToInt "5").toNat)).code =
        "NOTFOUND_ERROR") ∧
    getUseCaseById demoStore "1" = .ok demoRow ∧
    (getUseCaseById demoStore "0" = .error (.validation ["id"]) ∧
      (errorResponse (.validation ["id"])).status = 400 ∧
      (errorResponse (.validation ["id"])).code = "VALIDATION_ERROR") := by
  refine ⟨?_, ?_, ?_⟩
  · exact (c4_get_by_id demoStore "5" demoRow).1 (by decide) (by decide) (by decide)
  · refine (c4_get_by_id demoStore "1" demoRow).2.1 (by decide) (by decide) (by decide)
      (by decide) ?_
    have hrows : demoStore.rows = [demoRow] := by decide
    rw [hrows]
    simp
  · exact (c4_get_by_id demoStore "0" demoRow).2.2 (Or.inr (by decide))


/-! ### C6: successful create and get-by-id roundtrip -/

/-- C6: a valid create payload passing the duplicate check is stored
and returned as a row whose string fields are the trimmed submitted
fields, whose absent optional fields are null, with the generated id
and the store timestamps, and a subsequent get-by-id with that id
returns the identical row. -/
theorem c6_create_roundtrip (s : Store) (r : CreateRequest)
    (hv : createValidationErrors (sanitizeCreate r) = [])
    (hnew : s.findByNameCi (jsTrim (sanitizeCreate r).useCase) = none)
    (hlt : ∀ x ∈ s.rows, x.id < s.nextId)
    (hpos : 1 ≤ s.nextId) :
    (postUseCase s r).2 = .created (createdRow s r) ∧
    (postUseCase s r).1.rows = s.rows ++ [createdRow s r] ∧
    (createdRow s r).useCase = jsTrim r.useCase ∧
    (createdRow s r).conceptDescription = jsTrim r.conceptDescription ∧
    (createdRow s r).concreteImplementation = r.concreteImplementation.map jsTrim ∧
    (createdRow s r).benefit = r.benefit.map jsTrim ∧
    (createdRow s r).industry = r.industry.map jsTrim ∧
    (createdRow s r).department = r.department.map jsTrim ∧
    (createdRow s r).valueChainStep = r.valueChainStep.map jsTrim ∧
    (createdRow s r).url = r.url.map jsTrim ∧
    (r.concreteImplementation = none → (createdRow s r).concreteImplementation = none) ∧
    (r.benefit = none → (createdRow s r).benefit = none) ∧
    (r.industry = none → (createdRow s r).industry = none) ∧
    (r.department = none → (createdRow s r).department = none) ∧
    (r.valueChainStep = none → (createdRow s r).valueChainStep = none) ∧
    (r.url = none → (createdRow s r).url = none) ∧
    (createdRow s r).id = s.nextId ∧
    (createdRow s r).createdAt = s.clock ∧
    (createdRow s r).updatedAt = s.clock ∧
    (∀ idParam, isIntString idParam = true → strToInt idParam = (s.nextId : Int) →
      getUseCaseById (postUseCase s r).1 idParam = .ok (createdRow s r)) := by
  have hres : postUseCase s r =
      (⟨s.rows ++ [createdRow s r], s.nextId + 1, s.clock + 1⟩,
        .created (createdRow s r)) := by
    simp [postUseCase, hv, hnew, Store.create, createdRow]
  refine ⟨by rw [hres], by rw [hres], ?_, ?_, ?_, ?_, ?_, ?_, ?_, ?_,
    ?_, ?_, ?_, ?_, ?_, ?_, rfl, rfl, rfl, ?_⟩
  · simp [createdRow, sanitizeCreate, jsTrim_idem]
  · simp [createdRow, sanitizeCreate, jsTrim_idem]
  · cases hb : r.concreteImplementation <;>
      simp [createdRow, sanitizeCreate, hb, jsTrim_idem]
  · cases hb : r.benefit <;> simp [createdRow, sanitizeCreate, hb, jsTrim_idem]
  · cases hb : r.industry <;> simp [createdRow, sanitizeCreate, hb, jsTrim_idem]
  · cases hb : r.department <;> simp [createdRow, sanitizeCreate, hb, jsTrim_idem]
  · cases hb : r.valueChainStep <;> simp [createdRow, sanitizeCreate, hb, jsTrim_idem]
  · cases hb : r.url <;> simp [createdRow, sanitizeCreate, hb, jsTrim_idem]
  · intro h; simp [createdRow, sanitizeCreate, h]
  · intro h; simp [createdRow, sanitizeCreate, h]
  · intro h; simp [createdRow, sanitizeCreate, h]
  · intro h; simp [createdRow, sanitizeCreate, h]
  · intro h; simp [createdRow, sanitizeCreate, h]
  · intro h; simp [createdRow, sanitizeCreate, h]
  · intro idParam hp hval
    have hc : (1 : Int) ≤ strToInt idParam := by
      rw [hval]
      exact_mod_cast hpos
    have ht : (strToInt idParam).toNat = s.nextId := by
      rw [hval]
      exact Int.toNat_natCast _
    have hfind : (Store.mk (s.rows ++ [createdRow s r]) (s.nextId + 1)
        (s.clock + 1)).findById s.nextId = some (createdRow s r) := by
      unfold Store.findById
      rw [List.find?_append]
      have h1 : s.rows.find? (fun x => decide (x.id = s.nextId)) = none := by
        rw [List.find?_eq_none]
        intro x hx
        simp only [decide_eq_true_eq]
        exact Nat.ne_of_lt (hlt x hx)
      rw [h1]
      simp [createdRow]
    rw [hres]
    simp [getUseCaseById, hp, hc, ht, hfind]

/-- Witness for C6 at the concrete demo request on an empty store. -/
theorem c6_create_roundtrip_witness :
    createValidationErrors (sanitizeCreate demoReq) = [] ∧
    emptyStore.findByNameCi (jsTrim (sanitizeCreate demoReq).useCase) = none ∧
    1 ≤ emptyStore.nextId ∧
    ((postUseCase emptyStore demoReq).2 = .created (createdRow emptyStore demoReq) ∧
    (postUseCase emptyStore demoReq).1.rows =
      emptyStore.rows ++ [createdRow emptyStore demoReq] ∧
    (createdRow emptyStore demoReq).useCase = jsTrim demoReq.useCase ∧
    (createdRow emptyStore demoReq).conceptDescription =
      jsTrim demoReq.conceptDescription ∧
    (createdRow emptyStore demoReq).concreteImplementation =
      demoReq.concreteImplementation.map jsTrim ∧
    (createdRow emptyStore demoReq).benefit = demoReq.benefit.map jsTrim ∧
    (createdRow emptyStore demoReq).industry = demoReq.industry.map jsTrim ∧
    (createdRow emptyStore demoReq).department = demoReq.department.map jsTrim ∧
    (createdRow emptyStore demoReq).valueChainStep =
      demoReq.valueChainStep.map jsTrim ∧
    (createdRow emptyStore demoReq).url = demoReq.url.map jsTrim ∧
    (demoReq.concreteImplementation = none →
      (createdRow emptyStore demoReq).concreteImplementation = none) ∧
    (demoReq.benefit = none → (createdRow emptyStore demoReq).benefit = none) ∧
    (demoReq.industry = none → (createdRow emptyStore demoReq).industry = none) ∧
    (demoReq.department = none → (createdRow emptyStore demoReq).department = none) ∧
    (demoReq.valueChainStep = none →
      (createdRow emptyStore demoReq).valueChainStep = none) ∧
    (demoReq.url = none → (createdRow emptyStore demoReq).url = none) ∧
    (createdRow emptyStore demoReq).id = emptyStore.nextId ∧
    (createdRow emptyStore demoReq).createdAt = emptyStore.clock ∧
    (createdRow emptyStore demoReq).updatedAt = emptyStore.clock ∧
    (∀ idParam, isIntString idParam = true →
      strToInt idParam = (emptyStore.nextId : Int) →
      getUseCaseById (postUseCase emptyStore demoReq).1 idParam =
        .ok (createdRow emptyStore demoReq))) := by
  refine ⟨by decide, by decide, by decide, ?_⟩
  refine c6_create_roundtrip emptyStore demoReq (by decide) (by decide) ?_ (by decide)
  intro x hx
  simp [emptyStore] at hx


/-! ### C7: importer idempotence -/

/-- Import of a row with a blank name only counts a skip. -/
theorem importRow_empty_name {s : Store} {row : CsvRow}
    (hn : normalizeValue row.useCase = none) :
    importRow s row = (s, .emptyName) := by
  simp [importRow, hn]

/-- Import of a row with a blank description only counts a skip. -/
theorem importRow_empty_desc {s : Store} {row : CsvRow} {n : String}
    (hn : normalizeValue row.useCase = some n)
    (hd : normalizeValue row.conceptDescription = none) :
    importRow s row = (s, .emptyDesc) := by
  simp [importRow, hn, hd]

/-- Import of a fully valid row whose name already exists case-blind
only counts a duplicate. -/
theorem importRow_duplicate {s : Store} {row : CsvRow} {n d : String} {x : UseCase}
    (hn : normalizeValue row.useCase = some n)
    (hd : normalizeValue row.conceptDescription = some d)
    (hf : s.findByNameCi n = some x) :
    importRow s row = (s, .duplicate) := by
  simp [importRow, hn, hd, hf]

/-- Import of a fully valid new row appends the normalized record. -/
theorem importRow_inserts {s : Store} {row : CsvRow} {n d : String}
    (hn : normalizeValue row.useCase = some n)
    (hd : normalizeValue row.conceptDescription = some d)
    (hf : s.findByNameCi n = none) :
    (importRow s row).1.rows = s.rows ++ [importedRow s row n d] ∧
    (importRow s row).2 = .insertedRow := by
  constructor <;> simp [importRow, hn, hd, hf, Store.create, importedRow]

/-- Importing one row either leaves the rows unchanged or appends the
normalized record. -/
theorem importRow_rows_mono (s : Store) (row : CsvRow) :
    (importRow s row).1.rows = s.rows ∨
    ∃ n d, (importRow s row).1.rows = s.rows ++ [importedRow s row n d] := by
  cases hn : normalizeValue row.useCase with
  | none => left; rw [importRow_empty_name hn]
  | some n =>
    cases hd : normalizeValue row.conceptDescription with
    | none => left; rw [importRow_empty_desc hn hd]
    | some d =>
      cases hf : s.findByNameCi n with
      | some x => left; rw [importRow_duplicate hn hd hf]
      | none => right; exact ⟨n, d, (importRow_inserts hn hd hf).1⟩

/-- A name present in the store stays present across one import step. -/
theorem findByNameCi_isSome_mono {s : Store} {name : String}
    (h : (s.findByNameCi name).isSome = true) (row : CsvRow) :
    (((importRow s row).1).findByNameCi name).isSome = true := by
  obtain ⟨x, hx⟩ := Option.isSome_iff_exists.mp h
  rcases importRow_rows_mono s row with hr | ⟨n, d, hr⟩
  · unfold Store.findByNameCi at hx ⊢
    rw [hr, hx]
    rfl
  · unfold Store.findByNameCi at hx ⊢
    rw [hr, List.find?_append, hx]
    rfl

/-- A name present in the store stays present across a whole import
run. -/
theorem runImportAux_findByNameCi_mono {name : String} :
    ∀ (rows : List CsvRow) (s : Store) (st : ImportStats),
    (s.findByNameCi name).isSome = true →
    (((runImportAux s st rows).1).findByNameCi name).isSome = true := by
  intro rows
  induction rows with
  | nil => intro s st h; exact h
  | cons row rest ih =>
    intro s st h
    simp only [runImportAux]
    exact ih _ _ (findByNameCi_isSome_mono h row)

/-- After an import run, the name of every fully valid record of the
file is present in the store. -/
theorem runImportAux_covers {name : String} :
    ∀ (rows : List CsvRow) (s : Store) (st : ImportStats) (row : CsvRow),
    row ∈ rows →
    normalizeValue row.useCase = some name →
    (normalizeValue row.conceptDescription).isSome = true →
    (((runImportAux s st rows).1).findByNameCi name).isSome = true := by
  intro rows
  induction rows with
  | nil => intro s st row h; cases h
  | cons hd rest ih =>
    intro s st row hmem hn hdesc
    rcases List.mem_cons.mp hmem with heq | hmem2
    · subst heq
      have hstep : (((importRow s row).1).findByNameCi name).isSome = true := by
        obtain ⟨d, hdd⟩ := Option.isSome_iff_exists.mp hdesc
        cases hf : s.findByNameCi name with
        | some x =>
          rw [importRow_duplicate hn hdd hf]
          simp [hf]
        | none =>
          unfold Store.findByNameCi at hf ⊢
          rw [(importRow_inserts hn hdd hf).1, List.find?_append, hf]
          simp [importedRow]
      simp only [runImportAux]
      exact runImportAux_findByNameCi_mono rest _ _ hstep
    · simp only [runImportAux]
      exact ih _ _ row hmem2 hn hdesc

/-- Across an import run, inserted plus duplicate counters grow by
exactly the number of fully valid records. -/
theorem runImportAux_ins_dup :
    ∀ (rows : List CsvRow) (s : Store) (st : ImportStats),
    (runImportAux s st rows).2.inserted + (runImportAux s st rows).2.duplicates =
      st.inserted + st.duplicates + rows.countP fullyValid := by
  intro rows
  induction rows with
  | nil => intro s st; simp [runImportAux]
  | cons row rest ih =>
    intro s st
    simp only [runImportAux]
    rw [ih]
    cases hn : normalizeValue row.useCase with
    | none =>
      rw [importRow_empty_name hn]
      simp [tallyOutcome, List.countP_cons, fullyValid, hn]
    | some n =>
      cases hdd : normalizeValue row.conceptDescription with
      | none =>
        rw [importRow_empty_desc hn hdd]
        simp [tallyOutcome, List.countP_cons, fullyValid, hn, hdd]
      | some d =>
        cases hf : s.findByNameCi n with
        | some x =>
          rw [importRow_duplicate hn hdd hf]
          simp [tallyOutcome, List.countP_cons, fullyValid, hn, hdd]
          omega
        | none =>
          rw [(importRow_inserts hn hdd hf).2]
          simp [tallyOutcome, List.countP_cons, fullyValid, hn, hdd]
          omega

/-- When every fully valid record of the file already has its name in
the store, an import run changes nothing: no inserts, every fully valid
record counted as a duplicate. -/
theorem runImportAux_idem :
    ∀ (rows : List CsvRow) (s : Store) (st : ImportStats),
    (∀ row ∈ rows, ∀ n, normalizeValue row.useCase = some n →
      (normalizeValue row.conceptDescription).isSome = true →
      (s.findByNameCi n).isSome = true) →
    (runImportAux s st rows).1 = s ∧
    (runImportAux s st rows).2.inserted = st.inserted ∧
    (runImportAux s st rows).2.duplicates = st.duplicates + rows.countP fullyValid := by
  intro rows
  induction rows with
  | nil => intro s st h; simp [runImportAux]
  | cons row rest ih =>
    intro s st h
    simp only [runImportAux]
    cases hn : normalizeValue row.useCase with
    | none =>
      rw [importRow_empty_name hn]
      have := ih s (tallyOutcome st .emptyName)
        (fun r hr => h r (List.mem_cons_of_mem _ hr))
      refine ⟨this.1, ?_, ?_⟩
      · rw [this.2.1]; rfl
      · rw [this.2.2]
        simp [tallyOutcome, List.countP_cons, fullyValid, hn]
    | some n =>
      cases hdd : normalizeValue row.conceptDescription with
      | none =>
        rw [importRow_empty_desc hn hdd]
        have := ih s (tallyOutcome st .emptyDesc)
          (fun r hr => h r (List.mem_cons_of_mem _ hr))
        refine ⟨this.1, ?_, ?_⟩
        · rw [this.2.1]; rfl
        · rw [this.2.2]
          simp [tallyOutcome, List.countP_cons, fullyValid, hn, hdd]
      | some d =>
        have hsome : (s.findByNameCi n).isSome = true :=
          h row (List.mem_cons_self _ _) n hn (by rw [hdd]; rfl)
        obtain ⟨x, hx⟩ := Option.isSome_iff_exists.mp hsome
        rw [importRow_duplicate hn hdd hx]
        have := ih s (tallyOutcome st .duplicate)
          (fun r hr => h r (List.mem_cons_of_mem _ hr))
        refine ⟨this.1, ?_, ?_⟩
        · rw [this.2.1]; rfl
        · rw [this.2.2]
          simp [tallyOutcome, List.countP_cons, fullyValid, hn, hdd]
          omega

/-- C7 as stated is false in its duplicate-count part: over a file that
repeats the same valid name, the second run counts two duplicates while
the first run inserted only one row. -/
theorem c7_counterexample :
    (runImport (runImport emptyStore [demoCsv, demoCsv]).1 [demoCsv, demoCsv]).2.inserted
        = 0 ∧
    (runImport emptyStore [demoCsv, demoCsv]).2.inserted = 1 ∧
    (runImport (runImport emptyStore [demoCsv, demoCsv]).1 [demoCsv, demoCsv]).2.duplicates
        = 2 ∧
    (runImport (runImport emptyStore [demoCsv, demoCsv]).1 [demoCsv, demoCsv]).2.duplicates
      ≠ (runImport emptyStore [demoCsv, demoCsv]).2.inserted := by
  refine ⟨by decide, by decide, by decide, by decide⟩

/-- C7 (amended): a second importer run over the same file inserts
nothing and leaves the store unchanged, and its duplicate count equals
the number of fully valid records of the file, which is the sum of the
inserted and duplicate counts of the first run (it equals the number of
rows inserted by the first run exactly when the first run itself found
no duplicates). -/
theorem c7_import_idempotent (s₀ : Store) (rows : List CsvRow) :
    (runImport (runImport s₀ rows).1 rows).1 = (runImport s₀ rows).1 ∧
    (runImport (runImport s₀ rows).1 rows).2.inserted = 0 ∧
    (runImport (runImport s₀ rows).1 rows).2.duplicates = rows.countP fullyValid ∧
    (runImport (runImport s₀ rows).1 rows).2.duplicates =
      (runImport s₀ rows).2.inserted + (runImport s₀ rows).2.duplicates := by
  have hcov : ∀ row ∈ rows, ∀ n, normalizeValue row.useCase = some n →
      (normalizeValue row.conceptDescription).isSome = true →
      (((runImport s₀ rows).1).findByNameCi n).isSome = true := by
    intro row hmem n hn hdesc
    exact runImportAux_covers rows s₀ _ row hmem hn hdesc
  have h2 := runImportAux_idem rows (runImport s₀ rows).1
    ⟨rows.length, 0, 0, 0, 0⟩ hcov
  have h1 := runImportAux_ins_dup rows s₀ ⟨rows.length, 0, 0, 0, 0⟩
  unfold runImport at h2 h1 ⊢
  refine ⟨h2.1, h2.2.1, ?_, ?_⟩
  · rw [h2.2.2]
    simp
  · rw [h2.2.2]
    simpa using h1.symm


/-! ### C9: store invariants under sequential operations -/

/-- Appending one good row with a fresh case-blind name preserves the
store invariant. -/
theorem storeInv_append {s t : Store} {row : UseCase}
    (ht : t.rows = s.rows ++ [row]) (h : StoreInv s)
    (h1 : jsTrim row.useCase ≠ "") (h2 : jsTrim row.conceptDescription ≠ "")
    (h3 : ∀ x ∈ s.rows, lowerStr x.useCase ≠ lowerStr row.useCase) :
    StoreInv t := by
  unfold StoreInv at h ⊢
  rw [ht]
  constructor
  · intro x hx
    rcases List.mem_append.mp hx with hx | hx
    · exact h.1 x hx
    · rw [List.mem_singleton.mp hx]
      exact ⟨h1, h2⟩
  · rw [List.pairwise_append]
    refine ⟨h.2, by simp, ?_⟩
    intro a ha b hb
    rw [List.mem_singleton.mp hb]
    exact h3 a ha

/-- A body passing validation has a non-blank sanitized name of the
documented length. -/
theorem validation_passes_useCase {r : CreateRequest}
    (hv : createValidationErrors r = []) :
    r.useCase ≠ "" ∧ 3 ≤ r.useCase.length ∧ r.useCase.length ≤ 500 := by
  by_contra hc
  unfold createValidationErrors at hv
  rw [if_neg hc] at hv
  simp at hv

/-- A body passing validation has a non-blank sanitized description of
the documented length. -/
theorem validation_passes_concept {r : CreateRequest}
    (hv : createValidationErrors r = []) :
    r.conceptDescription ≠ "" ∧ 10 ≤ r.conceptDescription.length ∧
      r.conceptDescription.length ≤ 10000 := by
  by_contra hc
  unfold createValidationErrors at hv
  rw [if_neg hc] at hv
  simp at hv

/-- A normalized cell is already trimmed and non-blank. -/
theorem normalizeValue_some {v : Option String} {t : String}
    (h : normalizeValue v = some t) : jsTrim t = t ∧ t ≠ "" := by
  cases v with
  | none => simp [normalizeValue] at h
  | some s =>
    simp only [normalizeValue] at h
    by_cases hl : 0 < (jsTrim s).length
    · rw [if_pos hl, Option.some.injEq] at h
      rw [← h]
      exact ⟨jsTrim_idem s, ne_empty_of_length_pos hl⟩
    · rw [if_neg hl] at h
      cases h

/-- The create endpoint preserves the store invariant. -/
theorem postUseCase_inv (s : Store) (r : CreateRequest) (h : StoreInv s) :
    StoreInv (postUseCase s r).1 := by
  by_cases hv : createValidationErrors (sanitizeCreate r) = []
  · cases hf : s.findByNameCi (jsTrim (sanitizeCreate r).useCase) with
    | some x =>
      have he : (postUseCase s r).1 = s := by simp [postUseCase, hv, hf]
      rw [he]; exact h
    | none =>
      have hres : (postUseCase s r).1.rows = s.rows ++ [createdRow s r] := by
        simp [postUseCase, hv, hf, Store.create, createdRow]
      have hu := (validation_passes_useCase hv).1
      have hc := (validation_passes_concept hv).1
      apply storeInv_append hres h
      · show jsTrim (jsTrim (sanitizeCreate r).useCase) ≠ ""
        rw [jsTrim_idem]
        show jsTrim (jsTrim r.useCase) ≠ ""
        rw [jsTrim_idem]
        exact hu
      · show jsTrim (jsTrim (sanitizeCreate r).conceptDescription) ≠ ""
        rw [jsTrim_idem]
        show jsTrim (jsTrim r.conceptDescription) ≠ ""
        rw [jsTrim_idem]
        exact hc
      · intro x hx
        have := List.find?_eq_none.mp hf x hx
        show lowerStr x.useCase ≠ lowerStr (jsTrim (sanitizeCreate r).useCase)
        simpa using this
  · have he : (postUseCase s r).1 = s := by simp [postUseCase, hv]
    rw [he]; exact h

/-- One import step preserves the store invariant. -/
theorem importRow_inv (s : Store) (row : CsvRow) (h : StoreInv s) :
    StoreInv (importRow s row).1 := by
  cases hn : normalizeValue row.useCase with
  | none => rw [importRow_empty_name hn]; exact h
  | some n =>
    cases hdd : normalizeValue row.conceptDescription with
    | none => rw [importRow_empty_desc hn hdd]; exact h
    | some d =>
      cases hf : s.findByNameCi n with
      | some x => rw [importRow_duplicate hn hdd hf]; exact h
      | none =>
        have hres := (importRow_inserts hn hdd hf).1
        obtain ⟨hjn, hnne⟩ := normalizeValue_some hn
        obtain ⟨hjd, hdne⟩ := normalizeValue_some hdd
        apply storeInv_append hres h
        · show jsTrim n ≠ ""
          rw [hjn]; exact hnne
        · show jsTrim d ≠ ""
          rw [hjd]; exact hdne
        · intro x hx
          have := List.find?_eq_none.mp hf x hx
          show lowerStr x.useCase ≠ lowerStr n
          simpa using this

/-- A whole import run preserves the store invariant. -/
theorem runImportAux_inv :
    ∀ (rows : List CsvRow) (s : Store) (st : ImportStats),
    StoreInv s → StoreInv (runImportAux s st rows).1 := by
  intro rows
  induction rows with
  | nil => intro s st h; exact h
  | cons row rest ih =>
    intro s st h
    simp only [runImportAux]
    exact ih _ _ (importRow_inv s row h)

/-- Every sequential operation preserves the store invariant. -/
theorem applyOp_inv (s : Store) (op : Op) (h : StoreInv s) :
    StoreInv (applyOp s op) := by
  cases op with
  | create r => exact postUseCase_inv s r h
  | importFile rows => exact runImportAux_inv rows s _ h

/-- C9: after any sequence of sequential create requests and importer
runs over a store satisfying the documented invariant, every stored row
still has a non-blank trimmed name and description and no two rows
share a name case-blind. -/
theorem c9_store_invariants (s : Store) (ops : List Op)
    (h1 : ∀ x ∈ s.rows, jsTrim x.useCase ≠ "" ∧ jsTrim x.conceptDescription ≠ "")
    (h2 : s.rows.Pairwise (fun a b => lowerStr a.useCase ≠ lowerStr b.useCase)) :
    (∀ x ∈ (applyOps s ops).rows,
      jsTrim x.useCase ≠ "" ∧ jsTrim x.conceptDescription ≠ "") ∧
    (applyOps s ops).rows.Pairwise
      (fun a b => lowerStr a.useCase ≠ lowerStr b.useCase) := by
  have main : ∀ (l : List Op) (t : Store), StoreInv t → StoreInv (applyOps t l) := by
    intro l
    induction l with
    | nil => intro t h; exact h
    | cons op rest ih =>
      intro t h
      simp only [applyOps, List.foldl_cons]
      exact ih _ (applyOp_inv t op h)
  exact main ops s ⟨h1, h2⟩

/-- Witness for C9: one create then one importer run from an empty
store. -/
theorem c9_store_invariants_witness :
    (∀ x ∈ emptyStore.rows,
      jsTrim x.useCase ≠ "" ∧ jsTrim x.conceptDescription ≠ "") ∧
    emptyStore.rows.Pairwise (fun a b => lowerStr a.useCase ≠ lowerStr b.useCase) ∧
    ((∀ x ∈ (applyOps emptyStore [Op.create demoReq, Op.importFile [demoCsv]]).rows,
      jsTrim x.useCase ≠ "" ∧ jsTrim x.conceptDescription ≠ "") ∧
    (applyOps emptyStore [Op.create demoReq, Op.importFile [demoCsv]]).rows.Pairwise
      (fun a b => lowerStr a.useCase ≠ lowerStr b.useCase)) := by
  refine ⟨?_, ?_, ?_⟩
  · intro x hx
    simp [emptyStore] at hx
  · simp [emptyStore]
  · exact c9_store_invariants emptyStore [Op.create demoReq, Op.importFile [demoCsv]]
      (fun x hx => by simp [emptyStore] at hx) (by simp [emptyStore])


/-! ### Pagination arithmetic and window lemmas -/

/-- The rounded-up page count times the page size covers the total. -/
theorem le_ceilDiv_mul (t l : Nat) (hl : 1 ≤ l) : t ≤ ((t + l - 1) / l) * l := by
  by_contra hA
  push_neg at hA
  have hmul : ((t + l - 1) / l + 1) * l = (t + l - 1) / l * l + l := by ring
  have h1 : ((t + l - 1) / l + 1) * l ≤ t + l - 1 := by omega
  have h2 := (Nat.le_div_iff_mul_le (by omega)).mpr h1
  omega

/-- The integer formula of the handler computes the rational ceiling of
total over limit. -/
theorem ceil_pages (t l : Nat) (hl : 1 ≤ l) :
    (((t + l - 1) / l : Nat) : ℤ) = ⌈(t : ℚ) / (l : ℚ)⌉ := by
  set q := (t + l - 1) / l with hqdef
  have hl0 : (0 : ℚ) < (l : ℚ) := by exact_mod_cast hl
  have hB : q * l ≤ t + l - 1 := Nat.div_mul_le_self _ _
  have hA : t ≤ q * l := le_ceilDiv_mul t l hl
  symm
  rw [Int.ceil_eq_iff]
  constructor
  · have hn1 : q * l + 1 ≤ t + l := by omega
    have hq1 : (q : ℚ) * l + 1 ≤ (t : ℚ) + l := by exact_mod_cast hn1
    rw [lt_div_iff₀ hl0]
    push_cast
    have hexp : ((q : ℚ) - 1) * l = (q : ℚ) * l - l := by ring
    rw [hexp]
    linarith
  · rw [div_le_iff₀ hl0]
    push_cast
    exact_mod_cast hA

/-- Every member of a list lies in some window of positive width. -/
theorem mem_exists_window {α : Type} {limit : Nat} (hl : 1 ≤ limit) :
    ∀ (n : Nat) (l : List α), l.length ≤ n → ∀ x, x ∈ l →
      ∃ i, x ∈ (l.drop (i * limit)).take limit := by
  intro n
  induction n with
  | zero =>
    intro l hlen x hx
    have hnil : l = [] := List.eq_nil_of_length_eq_zero (Nat.le_zero.mp hlen)
    subst hnil
    cases hx
  | succ n ih =>
    intro l hlen x hx
    by_cases hxt : x ∈ l.take limit
    · exact ⟨0, by simpa using hxt⟩
    · have hx2 : x ∈ l.take limit ++ l.drop limit := by
        rw [List.take_append_drop]
        exact hx
      have hxd : x ∈ l.drop limit := by
        rcases List.mem_append.mp hx2 with h | h
        · exact absurd h hxt
        · exact h
      have hpos : 1 ≤ l.length := List.length_pos.mpr (by rintro rfl; cases hx)
      have hlen2 : (l.drop limit).length ≤ n := by
        rw [List.length_drop]
        omega
      obtain ⟨i, hi⟩ := ih (l.drop limit) hlen2 x hxd
      refine ⟨i + 1, ?_⟩
      rw [List.drop_drop] at hi
      have harith : (i + 1) * limit = limit + i * limit := by ring
      rw [harith]
      exact hi

/-- The categorical clause in propositional form. -/
theorem ciEqFilter_iff (o field : Option String) :
    ciEqFilter o field = true ↔
      ∀ fs, o = some fs → ∃ v, field = some v ∧ lowerStr v = lowerStr fs := by
  cases o with
  | none => simp [ciEqFilter]
  | some s =>
    cases field with
    | none => simp [ciEqFilter]
    | some v => simp [ciEqFilter]

/-- The search clause in propositional form. -/
theorem searchFilter_iff (o : Option String) (r : UseCase) :
    searchFilter o r = true ↔
      ∀ fs, o = some fs →
        (containsChars (lowerStr r.useCase).data (lowerStr fs).data = true ∨
         containsChars (lowerStr r.conceptDescription).data (lowerStr fs).data = true ∨
         ∃ b, r.benefit = some b ∧
           containsChars (lowerStr b).data (lowerStr fs).data = true) := by
  cases o with
  | none => simp [searchFilter]
  | some s =>
    cases hb : r.benefit with
    | none => simp [searchFilter, hb]
    | some b => simp [searchFilter, hb, or_assoc]


/-! ### C3: pagination block correctness -/

/-- C3: for a valid page and limit and a fixed store and filter set,
the total is the count of matching rows and does not depend on the
requested page, totalPages is the rational ceiling of total over limit,
hasNext holds exactly below totalPages, hasPrev exactly above page one,
and the data array is the page-th window of size limit of the matching
rows ordered by creation time descending. -/
theorem c3_list_pagination (s : Store) (page limit : Nat)
    (ind vcs dep sea : Option String)
    (_hp : 1 ≤ page) (hl1 : 1 ≤ limit) (_hl2 : limit ≤ 100) :
    (listHandler s (some page) (some limit) ind vcs dep sea).pagination.total =
      (s.rows.filter (listPred ind vcs dep sea)).length ∧
    (∀ page₂, (listHandler s (some page₂) (some limit) ind vcs dep sea).pagination.total =
      (listHandler s (some page) (some limit) ind vcs dep sea).pagination.total) ∧
    (((listHandler s (some page) (some limit) ind vcs dep sea).pagination.totalPages : ℤ) =
      ⌈((listHandler s (some page) (some limit) ind vcs dep sea).pagination.total : ℚ) /
        (limit : ℚ)⌉) ∧
    ((listHandler s (some page) (some limit) ind vcs dep sea).pagination.hasNext = true ↔
      page < (listHandler s (some page) (some limit) ind vcs dep sea).pagination.totalPages) ∧
    ((listHandler s (some page) (some limit) ind vcs dep sea).pagination.hasPrev = true ↔
      1 < page) ∧
    (∃ l, l.Perm (s.rows.filter (listPred ind vcs dep sea)) ∧
      List.Sorted createdDesc l ∧
      (listHandler s (some page) (some limit) ind vcs dep sea).data =
        (l.drop ((page - 1) * limit)).take limit) ∧
    List.Sorted createdDesc
      (listHandler s (some page) (some limit) ind vcs dep sea).data := by
  refine ⟨rfl, fun page₂ => rfl, ?_, ?_, ?_, ?_, ?_⟩
  · exact ceil_pages _ limit hl1
  · exact decide_eq_true_iff
  · exact decide_eq_true_iff
  · exact ⟨List.insertionSort createdDesc (s.rows.filter (listPred ind vcs dep sea)),
      List.perm_insertionSort createdDesc _,
      List.sorted_insertionSort createdDesc _, rfl⟩
  · exact List.Pairwise.sublist
      ((List.take_sublist _ _).trans (List.drop_sublist _ _))
      (List.sorted_insertionSort createdDesc _)

/-- Witness for C3 at a one-row store, page one, limit five. -/
theorem c3_list_pagination_witness :
    1 ≤ (1 : Nat) ∧ 1 ≤ (5 : Nat) ∧ (5 : Nat) ≤ 100 ∧
    ((listHandler demoStore (some 1) (some 5) none none none none).pagination.total =
      (demoStore.rows.filter (listPred none none none none)).length ∧
    (∀ page₂, (listHandler demoStore (some page₂) (some 5) none none none none).pagination.total =
      (listHandler demoStore (some 1) (some 5) none none none none).pagination.total) ∧
    (((listHandler demoStore (some 1) (some 5) none none none none).pagination.totalPages : ℤ) =
      ⌈((listHandler demoStore (some 1) (some 5) none none none none).pagination.total : ℚ) /
        (5 : ℚ)⌉) ∧
    ((listHandler demoStore (some 1) (some 5) none none none none).pagination.hasNext = true ↔
      1 < (listHandler demoStore (some 1) (some 5) none none none none).pagination.totalPages) ∧
    ((listHandler demoStore (some 1) (some 5) none none none none).pagination.hasPrev = true ↔
      1 < (1 : Nat)) ∧
    (∃ l, l.Perm (demoStore.rows.filter (listPred none none none none)) ∧
      List.Sorted createdDesc l ∧
      (listHandler demoStore (some 1) (some 5) none none none none).data =
        (l.drop ((1 - 1) * 5)).take 5) ∧
    List.Sorted createdDesc
      (listHandler demoStore (some 1) (some 5) none none none none).data) := by
  exact ⟨by decide, by decide, by decide,
    c3_list_pagination demoStore 1 5 none none none none (by decide) (by decide) (by decide)⟩


/-! ### C5: filter and search semantics -/

/-- C5: a stored row appears on some page of the list endpoint exactly
when it satisfies the conjunction of the active filters: each supplied
categorical filter equals the row field case-blind, and an active
search occurs case-blind as a substring of the name, the description or
the benefit (a row containing it nowhere is excluded). -/
theorem c5_filter_semantics (s : Store) (limit : Nat) (hl : 1 ≤ limit)
    (ind vcs dep sea : Option String) (r : UseCase) (hr : r ∈ s.rows) :
    (∃ page, r ∈ (listHandler s (some page) (some limit) ind vcs dep sea).data) ↔
    ((∀ fs, activeFilter (ind.map jsTrim) = some fs →
        ∃ v, r.industry = some v ∧ lowerStr v = lowerStr fs) ∧
     (∀ fs, activeFilter (vcs.map jsTrim) = some fs →
        ∃ v, r.valueChainStep = some v ∧ lowerStr v = lowerStr fs) ∧
     (∀ fs, activeFilter (dep.map jsTrim) = some fs →
        ∃ v, r.department = some v ∧ lowerStr v = lowerStr fs) ∧
     (∀ fs, activeFilter (sea.map jsTrim) = some fs →
        (containsChars (lowerStr r.useCase).data (lowerStr fs).data = true ∨
         containsChars (lowerStr r.conceptDescription).data (lowerStr fs).data = true ∨
         ∃ b, r.benefit = some b ∧
           containsChars (lowerStr b).data (lowerStr fs).data = true))) := by
  constructor
  · rintro ⟨page, hpage⟩
    have hsorted : r ∈ List.insertionSort createdDesc
        (s.rows.filter (listPred ind vcs dep sea)) :=
      List.mem_of_mem_drop (List.mem_of_mem_take hpage)
    have hfilter : r ∈ s.rows.filter (listPred ind vcs dep sea) :=
      (List.perm_insertionSort createdDesc _).mem_iff.mp hsorted
    have hm : listPred ind vcs dep sea r = true := List.of_mem_filter hfilter
    unfold listPred rowMatches at hm
    simp only [Bool.and_eq_true] at hm
    exact ⟨(ciEqFilter_iff _ _).mp hm.1.1.1, (ciEqFilter_iff _ _).mp hm.1.1.2,
      (ciEqFilter_iff _ _).mp hm.1.2, (searchFilter_iff _ _).mp hm.2⟩
  · intro hrhs
    have hm : listPred ind vcs dep sea r = true := by
      unfold listPred rowMatches
      simp only [Bool.and_eq_true]
      exact ⟨⟨⟨(ciEqFilter_iff _ _).mpr hrhs.1, (ciEqFilter_iff _ _).mpr hrhs.2.1⟩,
        (ciEqFilter_iff _ _).mpr hrhs.2.2.1⟩, (searchFilter_iff _ _).mpr hrhs.2.2.2⟩
    have hfilter : r ∈ s.rows.filter (listPred ind vcs dep sea) :=
      List.mem_filter.mpr ⟨hr, hm⟩
    have hsorted : r ∈ List.insertionSort createdDesc
        (s.rows.filter (listPred ind vcs dep sea)) :=
      (List.perm_insertionSort createdDesc _).mem_iff.mpr hfilter
    obtain ⟨i, hi⟩ := mem_exists_window hl
      (List.insertionSort createdDesc (s.rows.filter (listPred ind vcs dep sea))).length
      _ le_rfl r hsorted
    refine ⟨i + 1, ?_⟩
    show r ∈ ((List.insertionSort createdDesc
      (s.rows.filter (listPred ind vcs dep sea))).drop ((i + 1 - 1) * limit)).take limit
    simpa using hi

/-- Witness for C5 at the demo store with an active search string. -/
theorem c5_filter_semantics_witness :
    1 ≤ (5 : Nat) ∧ demoRow ∈ demoStore.rows ∧
    ((∃ page, demoRow ∈
        (listHandler demoStore (some page) (some 5) none none none
          (some "predictive")).data) ↔
    ((∀ fs, activeFilter ((none : Option String).map jsTrim) = some fs →
        ∃ v, demoRow.industry = some v ∧ lowerStr v = lowerStr fs) ∧
     (∀ fs, activeFilter ((none : Option String).map jsTrim) = some fs →
        ∃ v, demoRow.valueChainStep = some v ∧ lowerStr v = lowerStr fs) ∧
     (∀ fs, activeFilter ((none : Option String).map jsTrim) = some fs →
        ∃ v, demoRow.department = some v ∧ lowerStr v = lowerStr fs) ∧
     (∀ fs, activeFilter ((some "predictive" : Option String).map jsTrim) = some fs →
        (containsChars (lowerStr demoRow.useCase).data (lowerStr fs).data = true ∨
         containsChars (lowerStr demoRow.conceptDescription).data (lowerStr fs).data = true ∨
         ∃ b, demoRow.benefit = some b ∧
           containsChars (lowerStr b).data (lowerStr fs).data = true)))) := by
  exact ⟨by decide, by decide,
    c5_filter_semantics demoStore 5 (by decide) none none none (some "predictive")
      demoRow (by decide)⟩


/-! ### C10: page beyond the last page -/

/-- C10: with valid parameters and a page beyond totalPages the list
endpoint still answers success (the ok branch with the 200 response,
not an error): the data array is empty, the pagination block keeps the
filter-wide total and totalPages, hasNext is false and hasPrev holds
exactly above page one. -/
theorem c10_page_past_end (s : Store) (page limit : Nat)
    (ind vcs dep sea : Option String)
    (hp : 1 ≤ page) (hl1 : 1 ≤ limit)
    (hpast : (listHandler s (some page) (some limit) ind vcs dep sea).pagination.totalPages
      < page) :
    (listHandler s (some page) (some limit) ind vcs dep sea).data = [] ∧
    (listHandler s (some page) (some limit) ind vcs dep sea).pagination.total =
      (s.rows.filter (listPred ind vcs dep sea)).length ∧
    (listHandler s (some page) (some limit) ind vcs dep sea).pagination.totalPages =
      (listHandler s (some 1) (some limit) ind vcs dep sea).pagination.totalPages ∧
    (listHandler s (some page) (some limit) ind vcs dep sea).pagination.hasNext = false ∧
    ((listHandler s (some page) (some limit) ind vcs dep sea).pagination.hasPrev = true ↔
      1 < page) ∧
    (∀ p : ListParams, p.page = some page → p.limit = some limit →
      p.industry.map jsTrim = ind → p.valueChainStep.map jsTrim = vcs →
      p.department.map jsTrim = dep → p.search.map jsTrim = sea →
      listValidationOk (sanitizeListParams p) = true →
      getUseCases s p = .ok (listHandler s (some page) (some limit) ind vcs dep sea)) := by
  have hpast2 : ((s.rows.filter (listPred ind vcs dep sea)).length + limit - 1) / limit
      < page := hpast
  have hlen : (List.insertionSort createdDesc
      (s.rows.filter (listPred ind vcs dep sea))).length =
      (s.rows.filter (listPred ind vcs dep sea)).length :=
    (List.perm_insertionSort createdDesc _).length_eq
  have htp : (s.rows.filter (listPred ind vcs dep sea)).length ≤
      (((s.rows.filter (listPred ind vcs dep sea)).length + limit - 1) / limit) * limit :=
    le_ceilDiv_mul _ limit hl1
  have hskip : (((s.rows.filter (listPred ind vcs dep sea)).length + limit - 1) / limit)
      * limit ≤ (page - 1) * limit := by
    apply Nat.mul_le_mul_right
    omega
  refine ⟨?_, rfl, rfl, ?_, decide_eq_true_iff, ?_⟩
  · show ((List.insertionSort createdDesc
      (s.rows.filter (listPred ind vcs dep sea))).drop ((page - 1) * limit)).take limit = []
    have hnil : (List.insertionSort createdDesc
        (s.rows.filter (listPred ind vcs dep sea))).drop ((page - 1) * limit) = [] := by
      rw [List.drop_eq_nil_iff, hlen]
      omega
    rw [hnil]
    simp
  · show decide (page < ((s.rows.filter (listPred ind vcs dep sea)).length + limit - 1)
      / limit) = false
    rw [decide_eq_false_iff_not]
    omega
  · intro p hpp hpl hind hvcs hdep hsea hvalid
    have hs : sanitizeListParams p =
        ⟨some page, some limit, ind, vcs, dep, sea⟩ := by
      simp [sanitizeListParams, hpp, hpl, hind, hvcs, hdep, hsea]
    rw [hs] at hvalid
    simp only [getUseCases, hs]
    simp [hvalid]

/-- Witness for C10: page three of a one-row store with limit five. -/
theorem c10_page_past_end_witness :
    1 ≤ (3 : Nat) ∧ 1 ≤ (5 : Nat) ∧
    (listHandler demoStore (some 3) (some 5) none none none none).pagination.totalPages < 3 ∧
    ((listHandler demoStore (some 3) (some 5) none none none none).data = [] ∧
    (listHandler demoStore (some 3) (some 5) none none none none).pagination.total =
      (demoStore.rows.filter (listPred none none none none)).length ∧
    (listHandler demoStore (some 3) (some 5) none none none none).pagination.totalPages =
      (listHandler demoStore (some 1) (some 5) none none none none).pagination.totalPages ∧
    (listHandler demoStore (some 3) (some 5) none none none none).pagination.hasNext = false ∧
    ((listHandler demoStore (some 3) (some 5) none none none none).pagination.hasPrev = true ↔
      1 < (3 : Nat)) ∧
    (∀ p : ListParams, p.page = some 3 → p.limit = some 5 →
      p.industry.map jsTrim = none → p.valueChainStep.map jsTrim = none →
      p.department.map jsTrim = none → p.search.map jsTrim = none →
      listValidationOk (sanitizeListParams p) = true →
      getUseCases demoStore p =
        .ok (listHandler demoStore (some 3) (some 5) none none none none))) := by
  exact ⟨by decide, by decide, by decide,
    c10_page_past_end demoStore 3 5 none none none none (by decide) (by decide) (by decide)⟩

